import Mathlib

/-!
Verification development for the Nexus multimodal research client.

This file gives a shallow embedding, in Lean 4, of the parts of the
TypeScript source that carry contracts: the context assembler
(`performResearch` in the gemini service module), the markdown stripper
and speech payload construction (`stripMarkdown`, `generateSpeech`), the
audio pipeline controls (`handleSpeech`, `startRecording`, the auto-speak
effect in `ChatInterface`), the send-message error path (`handleSendMessage`
in `App`), and the IndexedDB wrapper's fetch-all operations (`db`).

JavaScript strings are modelled as Lean `String`s; the whitespace class
`\s` of JavaScript regular expressions is modelled by the ASCII whitespace
characters (space, tab, newline, carriage return, vertical tab, form feed),
which is the fragment exercised by the program's data. Asynchronous code is
modelled by pure functions over explicit outcome values, and stateful
React handlers by explicit state-transition functions that also report the
externally visible actions they perform, in order.
-/

namespace Nexus

/-! ## Data model (types.ts) -/

/-- Document type tags: `'text' | 'json' | 'markdown' | 'image' | 'pdf' | 'csv'`. -/
inductive DocType where
  | text
  | json
  | markdown
  | image
  | pdf
  | csv
deriving DecidableEq, Repr

/-- String form of a `DocType`, as interpolated by `${doc.type}`. -/
def DocType.str : DocType → String
  | .text => "text"
  | .json => "json"
  | .markdown => "markdown"
  | .image => "image"
  | .pdf => "pdf"
  | .csv => "csv"

/-- `DocumentItem` from types.ts. `content` is raw text for textual types and a
data-URL-encoded base64 payload for binary types. The optional `mimeType`
field is `Option String` (`none` models `undefined`). -/
structure DocumentItem where
  id : String
  name : String
  content : String
  type : DocType
  mimeType : Option String
  timestamp : Nat
deriving DecidableEq, Repr

/-- `GroundingSource` from types.ts. -/
structure GroundingSource where
  title : String
  uri : String
deriving DecidableEq, Repr

/-- `ChatAttachment` from types.ts; the `type` field is always `'image'` and is
omitted here. -/
structure ChatAttachment where
  mimeType : String
  data : String
deriving DecidableEq, Repr

/-- Message roles: `'user' | 'model'`. -/
inductive Role where
  | user
  | model
deriving DecidableEq, Repr

/-- `ChatMessage` from types.ts. The optional `sources` and `attachments`
arrays are modelled as lists, with `[]` standing for `undefined` (the code
only ever tests emptiness/iterates). -/
structure ChatMessage where
  id : String
  role : Role
  text : String
  sources : List GroundingSource
  attachments : List ChatAttachment
  timestamp : Nat
deriving DecidableEq, Repr

/-- `AppStatus` enum from types.ts. -/
inductive AppStatus where
  | idle
  | loading
  | error
deriving DecidableEq, Repr

/-- `ModelType`: `'gemini-3-pro-preview' | 'gemini-3-flash-preview'`. -/
inductive ModelType where
  | gemini3pro
  | gemini3flash
deriving DecidableEq, Repr

/-! ## JavaScript string helpers -/

/-- ASCII fragment of the JavaScript `\s` whitespace class (also the
characters removed by `String.prototype.trim`). -/
def isJsWs (c : Char) : Bool :=
  c == ' ' || c == '\t' || c == '\n' || c == '\r' || c == '\x0b' || c == '\x0c'

/-- JavaScript `s.trim()` on the character list. -/
def jsTrimList (l : List Char) : List Char :=
  ((l.dropWhile isJsWs).reverse.dropWhile isJsWs).reverse

/-- JavaScript `s.trim()`. -/
def jsTrim (s : String) : String :=
  ⟨jsTrimList s.data⟩

/-- `s.replace(/[\r\n\s]+/g, '')`: removes every whitespace character
(`\r` and `\n` are already inside `\s`). -/
def stripWs (s : String) : String :=
  ⟨s.data.filter (fun c => !isJsWs c)⟩

/-- JavaScript truthiness of `x || d` for an optional string `x` (an absent
or empty string falls back to the default). -/
def jsOrString : Option String → String → String
  | some s, d => if s = "" then d else s
  | none, d => d

/-! ## Request parts and turns -/

/-- One content part of a request turn: either `{ text: ... }` or
`{ inlineData: { mimeType, data } }`. -/
inductive Part where
  | text (s : String)
  | inlineData (mimeType : String) (data : String)
deriving DecidableEq, Repr

/-- One role-tagged turn of the request. -/
structure Turn where
  role : Role
  parts : List Part
deriving DecidableEq, Repr

/-! ## Context assembler (`performResearch`, gemini service module)

The embedding follows the current gemini service source: history replay
with a `"..."` placeholder, per-document knowledge-base parts, data-URL
decoding and whitespace normalization for binary documents, and the
`"Analyze the current context."` fallback for an otherwise empty new turn.
-/

/-- History replay for one message (`history.map` body): a text part when
`msg.text && msg.text.trim()` is truthy, then one `inlineData` part per
attachment, with the `"..."` placeholder when no part was produced. -/
def historyTurnParts (msg : ChatMessage) : List Part :=
  let parts :=
    (if jsTrim msg.text = "" then [] else [Part.text msg.text])
      ++ msg.attachments.map (fun att => Part.inlineData att.mimeType att.data)
  if parts = [] then [Part.text "..."] else parts

/-- `['text', 'json', 'markdown', 'csv'].includes(doc.type)`. -/
def isTextualType (t : DocType) : Bool :=
  t == DocType.text || t == DocType.json || t == DocType.markdown || t == DocType.csv

/-- `['image', 'pdf'].includes(doc.type)`. -/
def isBinaryType (t : DocType) : Bool :=
  t == DocType.image || t == DocType.pdf

/-- The text part built for one textual knowledge-base document:
`` [KNOWLEDGE BASE DOCUMENT: ${doc.name} (${doc.type})]\n${doc.content} ``. -/
def textDocPart (doc : DocumentItem) : Part :=
  Part.text ("[KNOWLEDGE BASE DOCUMENT: " ++ doc.name ++ " (" ++ doc.type.str ++ ")]\n"
    ++ doc.content)

/-- `content.indexOf(',')` followed by the two slices: splits a character
list at its first comma, returning the prefix before it and the suffix
after it, or `none` when no comma occurs. -/
def breakAtComma : List Char → Option (List Char × List Char)
  | [] => none
  | c :: cs =>
    if c = ',' then some ([], cs)
    else (breakAtComma cs).map (fun p => (c :: p.1, p.2))

/-- `rest` starts with the literal `;base64`. -/
def startsWithSemiBase64 : List Char → Bool
  | ';' :: 'b' :: 'a' :: 's' :: 'e' :: '6' :: '4' :: _ => true
  | _ => false

/-- Attempted match of `data:([^;]+);base64` anchored at the head of the
list: the literal `data:`, then a non-empty greedy run of non-`;`
characters (the capture), then the literal `;base64`. -/
def matchDataMime : List Char → Option (List Char)
  | 'd' :: 'a' :: 't' :: 'a' :: ':' :: rest =>
    let run := rest.takeWhile (fun c => c != ';')
    if run = [] then none
    else if startsWithSemiBase64 (rest.drop run.length) then some run
    else none
  | _ => none

/-- `header.match(/data:([^;]+);base64/)`: leftmost match of the pattern,
returning the first capture group. -/
def searchDataMime : List Char → Option (List Char)
  | [] => none
  | c :: cs =>
    match matchDataMime (c :: cs) with
    | some run => some run
    | none => searchDataMime cs

/-- First comma split of a binary document's content: `(header?, payload)`
where `header` is the slice before the first comma (`none` when the content
has no comma, in which case the whole content is treated as the payload —
the raw-base64 fallback branch). -/
def binarySplit (content : String) : Option (List Char) × List Char :=
  match breakAtComma content.data with
  | some p => (some p.1, p.2)
  | none => (none, content.data)

/-- The normalized base64 payload of a binary document:
the slice after the first comma (or the whole content), with
`replace(/[\r\n\s]+/g, '')` applied. -/
def binaryDocData (doc : DocumentItem) : String :=
  ⟨(binarySplit doc.content).2.filter (fun c => !isJsWs c)⟩

/-- The MIME type placed on a binary document's part: the capture of
`data:([^;]+);base64` in the data-URL header when it matches, else the
document's own `mimeType` field, with the JavaScript `||` fallback to
`'application/pdf'` for PDFs and `'image/jpeg'` otherwise. -/
def binaryDocMimeUsed (doc : DocumentItem) : String :=
  let extracted : Option String :=
    match (binarySplit doc.content).1 with
    | some header =>
      match searchDataMime header with
      | some run => some ⟨run⟩
      | none => doc.mimeType
    | none => doc.mimeType
  jsOrString extracted (if doc.type = DocType.pdf then "application/pdf" else "image/jpeg")

/-- The parts contributed by one binary knowledge-base document: one
`inlineData` part when the normalized payload is non-empty (`if (base64Data)`),
none otherwise. -/
def binaryDocPart (doc : DocumentItem) : List Part :=
  if binaryDocData doc = "" then []
  else [Part.inlineData (binaryDocMimeUsed doc) (binaryDocData doc)]

/-- The parts contributed by one per-turn attachment: one `inlineData` part
carrying the whitespace-stripped data when `att.data` is truthy, none
otherwise. -/
def attachmentParts (att : ChatAttachment) : List Part :=
  if att.data = "" then [] else [Part.inlineData att.mimeType (stripWs att.data)]

/-- The parts list of the new user turn (`currentParts` in `performResearch`):
textual knowledge-base documents, then binary ones, then the prompt when its
trim is truthy, then per-turn attachments, with the
`"Analyze the current context."` placeholder when nothing was produced. -/
def currentTurnParts (prompt : String) (memory : List DocumentItem)
    (currentAttachments : List ChatAttachment) : List Part :=
  let textParts := (memory.filter (fun d => isTextualType d.type)).map textDocPart
  let binParts := (memory.filter (fun d => isBinaryType d.type)).flatMap binaryDocPart
  let promptParts := if jsTrim prompt = "" then [] else [Part.text prompt]
  let attParts := currentAttachments.flatMap attachmentParts
  let parts := textParts ++ binParts ++ promptParts ++ attParts
  if parts = [] then [Part.text "Analyze the current context."] else parts

/-- A vendor tool enabled on the request. -/
inductive ToolSpec where
  | googleSearch
deriving DecidableEq, Repr

/-- The request configuration object assembled by `performResearch`. The
sampling temperature `0.7` is modelled as the rational `7/10`. -/
structure ResearchConfig where
  systemInstruction : String
  temperature : ℚ
  thinkingBudget : Nat
  tools : List ToolSpec
deriving DecidableEq, Repr

/-- The system instruction template, which varies only in wording between
the Pro and Flash variants. -/
def systemInstructionFor (isPro : Bool) : String :=
  "You are Nexus " ++ (if isPro then "Pro" else "Flash")
    ++ ", a high-performance multimodal Research Agent powered by Gemini 3. \n"
    ++ "    You have access to visual inputs (camera snapshots), audio inputs, and various document types (PDF, CSV, MD).\n"
    ++ "    Analyze the provided text documents, structured data (CSV), and visual/binary artifacts (Images, PDFs) "
    ++ (if isPro then "with extreme depth and reasoning" else "rapidly and accurately")
    ++ ". \n    If Google Search is enabled, use it to verify facts or find recent developments.\n"
    ++ "    If images or PDFs are provided, incorporate visual analysis into your response.\n"
    ++ "    Be objective, precise, and cite sources when available.\n"
    ++ "    Use your thinking process to synthesize datasets into cohesive insights "
    ++ (if isPro then "utilizing your full reasoning capacity" else "with minimal latency") ++ "."

/-- The configuration assembled by `performResearch`: the variant-dependent
system instruction, `temperature: 0.7`, `thinkingBudget: 32768` for Pro and
`24576` for Flash, and the `googleSearch` tool exactly when `useSearch`. -/
def mkConfig (model : ModelType) (useSearch : Bool) : ResearchConfig :=
  let isPro := model = ModelType.gemini3pro
  { systemInstruction := systemInstructionFor isPro
    temperature := 7 / 10
    thinkingBudget := if isPro then 32768 else 24576
    tools := if useSearch then [ToolSpec.googleSearch] else [] }

/-- The full request value sent to the vendor SDK. -/
structure ResearchRequest where
  contents : List Turn
  config : ResearchConfig
deriving DecidableEq, Repr

/-- The pure request-assembly core of `performResearch`: history replayed
in order, then the new user turn, plus the configuration object. -/
def performResearch (prompt : String) (history : List ChatMessage)
    (memory : List DocumentItem) (model : ModelType)
    (currentAttachments : List ChatAttachment) (useSearch : Bool) : ResearchRequest :=
  { contents :=
      history.map (fun msg => { role := msg.role, parts := historyTurnParts msg })
        ++ [{ role := Role.user, parts := currentTurnParts prompt memory currentAttachments }]
    config := mkConfig model useSearch }

/-! ## Send-message error path (`handleSendMessage`, App.tsx)

The handler is modelled as a pure function of its inputs and of the
outcome of the single awaited `performResearch` call. The returned record
collects the externally visible effects: the messages appended to the
conversation state, the messages persisted via `db.addMessage`, the final
status, and the number of research calls issued (the handler contains one
call site and no loop or retry).
-/

/-- Outcome of the awaited remote research call. -/
inductive ResearchOutcome where
  | success (text : String) (sources : List GroundingSource)
  | failure
deriving DecidableEq, Repr

/-- Effects of one `handleSendMessage` invocation. -/
structure SendEffects where
  appendedMessages : List ChatMessage
  persistedMessages : List ChatMessage
  finalStatus : AppStatus
  researchCalls : Nat
deriving DecidableEq, Repr

/-- The fixed text of the synthetic error message appended on research
failure. -/
def researchErrorText : String :=
  "Research cycle interrupted. Check your API key or data volume."

/-- `handleSendMessage` from App.tsx, as a function of the research
outcome. `now` stands for `Date.now()`; the user message is appended and
persisted first, the status is set to LOADING, and then either the model
reply (status IDLE) or the synthetic error message (status ERROR) is
appended and persisted. -/
def handleSendMessage (text : String) (attachments : List ChatAttachment)
    (now : Nat) (outcome : ResearchOutcome) : SendEffects :=
  let userMsg : ChatMessage :=
    { id := toString now, role := Role.user, text := text, sources := [],
      attachments := attachments, timestamp := now }
  match outcome with
  | .success responseText sources =>
    let aiMsg : ChatMessage :=
      { id := toString (now + 1), role := Role.model, text := responseText,
        sources := sources, attachments := [], timestamp := now }
    { appendedMessages := [userMsg, aiMsg], persistedMessages := [userMsg, aiMsg],
      finalStatus := AppStatus.idle, researchCalls := 1 }
  | .failure =>
    let errorMsg : ChatMessage :=
      { id := toString (now + 1), role := Role.model, text := researchErrorText,
        sources := [], attachments := [], timestamp := now }
    { appendedMessages := [userMsg, errorMsg], persistedMessages := [userMsg, errorMsg],
      finalStatus := AppStatus.error, researchCalls := 1 }

/-! ## Speech playback controls (ChatInterface.tsx) -/

/-- Speech playback state: `isSpeaking` (the active message id, or `null`),
`isPaused`, and whether an audio source node is attached
(`currentAudioSourceRef.current !== null`). -/
structure SpeechState where
  speaking : Option String
  paused : Bool
  hasSource : Bool
deriving DecidableEq, Repr

/-- Externally visible audio actions, in the order performed. -/
inductive SpeechAction where
  | stop
  | pause
  | resume
  | start (messageId : String)
deriving DecidableEq, Repr

/-- `stopSpeech`: discards the active source and clears the speaking and
paused flags. -/
def stopSpeechFn (_st : SpeechState) : SpeechState :=
  { speaking := none, paused := false, hasSource := false }

/-- `handleSpeech(text, messageId)` from ChatInterface.tsx, on the
successful synthesis path: when the same message is already the speech
target it only toggles pause/resume; otherwise it stops any current
playback and starts playback of the new message from the beginning. -/
def handleSpeech (st : SpeechState) (messageId : String) :
    SpeechState × List SpeechAction :=
  if st.speaking = some messageId then
    if st.paused then ({ st with paused := false }, [SpeechAction.resume])
    else ({ st with paused := true }, [SpeechAction.pause])
  else
    ({ speaking := some messageId, paused := false, hasSource := true },
     [SpeechAction.stop, SpeechAction.start messageId])

/-! ## Recording start (`startRecording`, ChatInterface.tsx) -/

/-- Externally visible effects of `startRecording`. -/
inductive RecAction where
  | stopPlayback
  | beginCapture
deriving DecidableEq, Repr

/-- `startRecording` from ChatInterface.tsx: guarded by
`if (isTranscribing || status === AppStatus.LOADING) return;`; on the
unguarded path it first stops speech playback, then attempts to acquire
the microphone (`micOk` models whether `getUserMedia` succeeds); capture
starts only on success, and a device failure leaves recording off. The
result is the new `isRecording` flag, the new speech state, and the
actions performed in order. -/
def startRecording (isRecording : Bool) (isTranscribing : Bool)
    (status : AppStatus) (speech : SpeechState) (micOk : Bool) :
    Bool × SpeechState × List RecAction :=
  if isTranscribing = true ∨ status = AppStatus.loading then
    (isRecording, speech, [])
  else
    let speech' := stopSpeechFn speech
    if micOk then (true, speech', [RecAction.stopPlayback, RecAction.beginCapture])
    else (isRecording, speech', [RecAction.stopPlayback])

/-! ## Auto-speak effect (ChatInterface.tsx) -/

/-- `messages[messages.length - 1]`, or `none` on an empty list. -/
def lastElem : List α → Option α
  | [] => none
  | [a] => some a
  | _ :: b :: l => lastElem (b :: l)

/-- State carried by the auto-speak effect: the `lastReadMessageIdRef`
tracker plus the speech playback state it can touch. -/
structure AutoSpeakState where
  lastRead : Option String
  speech : SpeechState
deriving DecidableEq, Repr

/-- One run of the auto-speak `useEffect` body over the current `messages`
array: the mount guard records the last id without speaking; an empty list
stops playback and resets the tracker; a new trailing message updates the
tracker and is spoken via `handleSpeech` exactly when it is model-authored
and the preference is enabled. -/
def autoSpeakStep (autoSpeak : Bool) (msgs : List ChatMessage)
    (st : AutoSpeakState) : AutoSpeakState × List SpeechAction :=
  match st.lastRead, lastElem msgs with
  | none, some lastMsg => ({ st with lastRead := some lastMsg.id }, [])
  | _, none => ({ lastRead := none, speech := stopSpeechFn st.speech }, [])
  | some lid, some lastMsg =>
    if lastMsg.id = lid then (st, [])
    else if lastMsg.role = Role.model ∧ autoSpeak = true then
      let r := handleSpeech st.speech lastMsg.id
      ({ lastRead := some lastMsg.id, speech := r.1 }, r.2)
    else ({ st with lastRead := some lastMsg.id }, [])

/-- The effect replayed over a sequence of snapshots of the `messages`
array (one entry per render in which the effect fires), starting from the
mount state, collecting all audio actions in order. -/
def autoSpeakRun (autoSpeak : Bool) (snapshots : List (List ChatMessage)) :
    AutoSpeakState × List SpeechAction :=
  snapshots.foldl
    (fun acc msgs =>
      let r := autoSpeakStep autoSpeak msgs acc.1
      (r.1, acc.2 ++ r.2))
    ({ lastRead := none, speech := { speaking := none, paused := false, hasSource := false } }, [])

/-! ## IndexedDB wrapper fetch-all operations (db module)

`getAllDocuments` / `getAllMessages` are `async` functions of the shape

  try { const db = await openDB(); return new Promise(...); } catch { return []; }

The `await openDB()` is inside the `try`, so an `openDB` rejection is
caught and degraded to `[]`. The inner `Promise` wrapping `store.getAll()`
is returned **without** `await`: the async function's result promise merely
adopts it after the `try` block has exited, so a rejection of the read
request itself escapes the `catch` and propagates to the caller. The two
failure points are modelled as explicit `Except` arguments, and the result
is the settled value of the promise the caller observes. -/

/-- `db.getAllDocuments()`. -/
def getAllDocuments (openResult : Except String Unit)
    (readResult : Except String (List DocumentItem)) :
    Except String (List DocumentItem) :=
  match openResult with
  | .error _ => .ok []
  | .ok _ => readResult

/-- `db.getAllMessages()`. -/
def getAllMessages (openResult : Except String Unit)
    (readResult : Except String (List ChatMessage)) :
    Except String (List ChatMessage) :=
  match openResult with
  | .error _ => .ok []
  | .ok _ => readResult

/-! ## Markdown stripping and speech payload (gemini service module)

`stripMarkdown` is a pipeline of seven global regex replacements followed
by `trim()`. Each replacement is modelled by a left-to-right scan over the
character list that mirrors the regex engine's leftmost-match/again-after
behaviour. Scans that consume a variable number of characters per step are
written with an explicit fuel argument; every step consumes at least one
character, so fuel equal to the list length always suffices and the
fuel-exhausted branch is unreachable. -/

/-- The backquote character (code 96), written via `Char.ofNat`. -/
def backquote : Char := Char.ofNat 96

/-- Drop up to `n` further leading `#` characters. -/
def dropUpToHash : Nat → List Char → List Char
  | 0, l => l
  | _, [] => []
  | n + 1, c :: cs => if c = '#' then dropUpToHash n cs else c :: cs

/-- Drop one optional leading whitespace character (`\s?`). -/
def dropOneWs : List Char → List Char
  | [] => []
  | c :: cs => if isJsWs c then cs else c :: cs

/-- `replace(/#{1,6}\s?/g, '')`: each match consumes one to six `#`
characters (greedy) and an optional following whitespace character. -/
def stripHeadersF : Nat → List Char → List Char
  | 0, l => l
  | _ + 1, [] => []
  | fuel + 1, c :: cs =>
    if c = '#' then stripHeadersF fuel (dropOneWs (dropUpToHash 5 cs))
    else c :: stripHeadersF fuel cs

/-- `replace(/\*\*/g, '')`. -/
def stripDoubleStars : List Char → List Char
  | '*' :: '*' :: rest => stripDoubleStars rest
  | c :: cs => c :: stripDoubleStars cs
  | [] => []

/-- Search for the next occurrence of three consecutive backquotes,
returning the remainder after it (the lazy `[\s\S]*?` closing search). -/
def findTripleAfter : List Char → Option (List Char)
  | a :: b :: c :: rest =>
    if a == backquote && b == backquote && c == backquote then some rest
    else findTripleAfter (b :: c :: rest)
  | _ => none

/-- The replacement text for fenced code blocks, as a character list. -/
def codeBlockOmitted : List Char :=
  "Code block omitted.".data

/-- Whether a list starts with two backquotes. -/
def startsWithTwoBQ : List Char → Bool
  | a :: b :: _ => a == backquote && b == backquote
  | _ => false

/-- `` replace(/`{3}[\s\S]*?`{3}/g, 'Code block omitted.') ``: a fenced
block opens at three backquotes and closes at the next three backquotes;
an unclosed opener is left in place (the regex fails and the scan advances
one character). -/
def stripCodeBlocksF : Nat → List Char → List Char
  | 0, l => l
  | _ + 1, [] => []
  | fuel + 1, c :: cs =>
    if c == backquote && startsWithTwoBQ cs then
      match findTripleAfter (cs.drop 2) with
      | some rest2 => codeBlockOmitted ++ stripCodeBlocksF fuel rest2
      | none => c :: stripCodeBlocksF fuel cs
    else c :: stripCodeBlocksF fuel cs

/-- Closing-backquote search for inline code: collects content characters
(any character except a line terminator, `.` without the `s` flag) until a
backquote, failing on a line terminator or end of input. -/
def findInlineClose : List Char → Option (List Char × List Char)
  | [] => none
  | c :: cs =>
    if c == backquote then some ([], cs)
    else if c == '\n' || c == '\r' then none
    else (findInlineClose cs).map (fun p => (c :: p.1, p.2))

/-- `` replace(/`(.+?)`/g, '$1') ``: an opening backquote followed by a
non-empty lazy run of non-line-terminator characters and a closing
backquote is replaced by the run. -/
def stripInlineCodeF : Nat → List Char → List Char
  | 0, l => l
  | _ + 1, [] => []
  | fuel + 1, c :: cs =>
    if c == backquote then
      match cs with
      | [] => [c]
      | d :: ds =>
        if d == '\n' || d == '\r' then c :: stripInlineCodeF fuel cs
        else
          match findInlineClose ds with
          | some p => (d :: p.1) ++ stripInlineCodeF fuel p.2
          | none => c :: stripInlineCodeF fuel cs
    else c :: stripInlineCodeF fuel cs

/-- Attempted match of `([^\]]+)\]\([^)]+\)` after an opening bracket:
the link text (non-empty, up to the first `]`), then `](`, then the URL
(non-empty, up to the first `)`), then `)`. Returns the text capture and
the remainder. -/
def matchLink (l : List Char) : Option (List Char × List Char) :=
  let t := l.takeWhile (fun c => c != ']')
  if t = [] then none
  else
    match l.drop t.length with
    | ']' :: '(' :: rest =>
      let u := rest.takeWhile (fun c => c != ')')
      if u = [] then none
      else
        match rest.drop u.length with
        | ')' :: rest2 => some (t, rest2)
        | _ => none
    | _ => none

/-- `replace(/\[([^\]]+)\]\([^)]+\)/g, '$1')`: markdown links keep their
text; a failed match leaves the bracket and the scan advances. -/
def stripLinksF : Nat → List Char → List Char
  | 0, l => l
  | _ + 1, [] => []
  | fuel + 1, c :: cs =>
    if c = '[' then
      match matchLink cs with
      | some p => p.1 ++ stripLinksF fuel p.2
      | none => c :: stripLinksF fuel cs
    else c :: stripLinksF fuel cs

/-- A JavaScript line terminator for multiline `^` (`\n` or `\r` in the
ASCII fragment). -/
def isLineTerm (c : Char) : Bool :=
  c == '\n' || c == '\r'

/-- Attempted match of `\s*-\s+` at a `^` position: a greedy whitespace
run, a hyphen, then a non-empty greedy whitespace run. On success returns
the remainder and whether it again begins at a `^` position (the last
consumed character was a line terminator). -/
def tryHyphen (l : List Char) : Option (List Char × Bool) :=
  let ws1 := l.takeWhile isJsWs
  match l.drop ws1.length with
  | c :: rest =>
    if c = '-' then
      let ws2 := rest.takeWhile isJsWs
      match lastElem ws2 with
      | none => none
      | some w => some (rest.drop ws2.length, isLineTerm w)
    else none
  | [] => none

/-- `replace(/^\s*-\s+/gm, '')`: the match is attempted at the string
start and after every line terminator. -/
def stripHyphensF : Nat → Bool → List Char → List Char
  | 0, _, l => l
  | _ + 1, _, [] => []
  | fuel + 1, atStart, c :: cs =>
    if atStart then
      match tryHyphen (c :: cs) with
      | some p => stripHyphensF fuel p.2 p.1
      | none => c :: stripHyphensF fuel (isLineTerm c) cs
    else c :: stripHyphensF fuel (isLineTerm c) cs

/-- `stripMarkdown` from the gemini service module: headers, bold
markers, remaining asterisks, fenced code blocks, inline code, links,
list hyphens, then `trim()`. -/
def stripMarkdown (text : String) : String :=
  let l1 := stripHeadersF text.data.length text.data
  let l2 := stripDoubleStars l1
  let l3 := l2.filter (fun c => c != '*')
  let l4 := stripCodeBlocksF l3.length l3
  let l5 := stripInlineCodeF l4.length l4
  let l6 := stripLinksF l5.length l5
  let l7 := stripHyphensF l6.length true l6
  ⟨jsTrimList l7⟩

/-- The text payload `generateSpeech` places into the synthesis request:
the markdown-stripped input, with the JavaScript `||` fallback to
`"I have no content to read."` when stripping yields the empty string. -/
def generateSpeechPayload (text : String) : String :=
  let cleanText := stripMarkdown text
  if cleanText = "" then "I have no content to read." else cleanText

/-! ## Auxiliary predicates and concrete sample data -/

/-- A content part is non-empty: a text part with non-empty text, or an
inline-data part with non-empty data. -/
def partNonempty : Part → Prop
  | .text s => s ≠ ""
  | .inlineData _ d => d ≠ ""

/-- A part whose inline data contains no whitespace character. -/
def partNoWs : Part → Prop
  | .text _ => True
  | .inlineData _ d => ∀ c ∈ d.data, isJsWs c = false

/-- The new-turn parts list exactly as claim C1 predicts it, with the
prompt part present whenever the prompt string is non-empty. Written from
the claim's words, to be compared against the source-derived
`currentTurnParts`. -/
def claimedNewTurnParts (prompt : String) (memory : List DocumentItem)
    (atts : List ChatAttachment) : List Part :=
  ((memory.filter (fun d => isTextualType d.type)).map textDocPart)
    ++ ((memory.filter (fun d => isBinaryType d.type)).map
          (fun d => Part.inlineData (binaryDocMimeUsed d) (binaryDocData d)))
    ++ (if prompt = "" then [] else [Part.text prompt])
    ++ (atts.map (fun a => Part.inlineData a.mimeType (stripWs a.data)))

/-- A sample textual memory document (the spec's `notes.txt` example). -/
def notesDoc : DocumentItem :=
  { id := "d1", name := "notes.txt", content := "A", type := DocType.text,
    mimeType := none, timestamp := 0 }

/-- A sample binary memory document, a data-URL-encoded image whose base64
payload carries an embedded newline. -/
def imgDoc : DocumentItem :=
  { id := "d2", name := "pic.png", content := "data:image/png;base64,iVBOR\nw0K",
    type := DocType.image, mimeType := some "image/jpeg", timestamp := 0 }

/-- A sample restored conversation present at mount time. -/
def demoLoaded : List ChatMessage :=
  [{ id := "h1", role := Role.user, text := "hi", sources := [], attachments := [], timestamp := 1 },
   { id := "h2", role := Role.model, text := "hello", sources := [], attachments := [], timestamp := 2 }]

/-- A sample user message sent after clearing the history. -/
def demoUserMsg : ChatMessage :=
  { id := "u3", role := Role.user, text := "question", sources := [], attachments := [], timestamp := 3 }

/-- The sample model reply that follows `demoUserMsg`. -/
def demoModelMsg : ChatMessage :=
  { id := "m4", role := Role.model, text := "answer", sources := [], attachments := [], timestamp := 4 }

/-! ## Helper lemmas -/

/-- A `flatMap` whose function yields a singleton on every element of the
list is the corresponding `map`. -/
theorem flatMap_eq_map_of_singleton {α β : Type} (L : List α) (g : α → List β)
    (f : α → β) (h : ∀ a ∈ L, g a = [f a]) : L.flatMap g = L.map f := by
  induction L with
  | nil => rfl
  | cons a l ih =>
    simp only [List.flatMap_cons, List.map_cons]
    rw [h a (List.mem_cons_self a l), ih (fun b hb => h b (List.mem_cons_of_mem a hb))]
    rfl

/-- `breakAtComma` splits at the first comma. -/
theorem breakAtComma_pre_comma (pre post : List Char) (h : ∀ c ∈ pre, c ≠ ',') :
    breakAtComma (pre ++ ',' :: post) = some (pre, post) := by
  induction pre with
  | nil => simp [breakAtComma]
  | cons c cs ih =>
    have hc : c ≠ ',' := h c (List.mem_cons_self c cs)
    have ih' := ih (fun d hd => h d (List.mem_cons_of_mem c hd))
    simp [breakAtComma, hc, ih']

/-- `takeWhile (· != ';')` over a semicolon-free prefix followed by a
semicolon returns exactly the prefix. -/
theorem takeWhile_neq_semi (l r : List Char) (h : ∀ c ∈ l, c ≠ ';') :
    (l ++ ';' :: r).takeWhile (fun c => c != ';') = l := by
  induction l with
  | nil => simp [List.takeWhile]
  | cons c cs ih =>
    have hc : c ≠ ';' := h c (List.mem_cons_self c cs)
    have ih' := ih (fun d hd => h d (List.mem_cons_of_mem c hd))
    have hb : (c != ';') = true := by simpa using hc
    simp [List.takeWhile, hb, ih']

/-- Dropping the length of the left part of an append. -/
theorem drop_len_append {α : Type} (l r : List α) : (l ++ r).drop l.length = r := by
  induction l with
  | nil => rfl
  | cons c cs ih => simp only [List.cons_append, List.length_cons, List.drop_succ_cons]; exact ih

/-- The last element of a list with a final element appended. -/
theorem lastElem_concat {α : Type} (l : List α) (a : α) :
    lastElem (l ++ [a]) = some a := by
  induction l with
  | nil => rfl
  | cons c cs ih =>
    cases cs with
    | nil => rfl
    | cons d ds => simp only [lastElem] at ih ⊢; exact ih

/-- Every document type is textual or binary. -/
theorem docType_textual_or_binary (t : DocType) :
    isTextualType t = true ∨ isBinaryType t = true := by
  cases t <;> simp [isTextualType, isBinaryType]

/-- The trim of the empty string is empty. -/
theorem jsTrim_empty : jsTrim "" = "" := rfl

/-- A string with a non-empty trim is non-empty. -/
theorem ne_empty_of_jsTrim_ne (s : String) (h : jsTrim s ≠ "") : s ≠ "" := by
  intro hs
  exact h (hs ▸ jsTrim_empty)

/-- Appending to a non-empty string yields a non-empty string. -/
theorem append_ne_empty_left (a b : String) (h : a.length ≠ 0) : a ++ b ≠ "" := by
  intro hab
  have hlen := congrArg String.length hab
  rw [String.length_append] at hlen
  have h0 : ("" : String).length = 0 := rfl
  rw [h0] at hlen
  omega

/-- An if-then-else whose both branches are non-empty lists is non-empty. -/
theorem if_nil_fallback_ne_nil {α : Type} [DecidableEq α] (l d : List α) (hd : d ≠ []) :
    (if l = [] then d else l) ≠ [] := by
  split
  · exact hd
  · assumption

/-- A history turn is never empty. -/
theorem historyTurnParts_ne_nil (msg : ChatMessage) : historyTurnParts msg ≠ [] := by
  unfold historyTurnParts
  exact if_nil_fallback_ne_nil _ [Part.text "..."] (by simp)

/-- The new turn is never empty. -/
theorem currentTurnParts_ne_nil (prompt : String) (memory : List DocumentItem)
    (atts : List ChatAttachment) : currentTurnParts prompt memory atts ≠ [] := by
  unfold currentTurnParts
  exact if_nil_fallback_ne_nil _ [Part.text "Analyze the current context."] (by simp)

/-- Membership in an if-then-else with a nil test lands in one branch. -/
theorem mem_if_nil_fallback {α : Type} [DecidableEq α] {p : α} (l d : List α)
    (hp : p ∈ (if l = [] then d else l)) : p ∈ d ∨ p ∈ l := by
  split at hp
  · exact Or.inl hp
  · exact Or.inr hp

/-- Every part of a history turn is non-empty, provided the message's
attachments carry non-empty data (history attachment data is forwarded
unchanged). -/
theorem historyTurnParts_parts_nonempty (msg : ChatMessage)
    (hatt : ∀ a ∈ msg.attachments, a.data ≠ "") :
    ∀ p ∈ historyTurnParts msg, partNonempty p := by
  intro p hp
  simp only [historyTurnParts] at hp
  rcases mem_if_nil_fallback _ _ hp with hfall | hmem
  · simp only [List.mem_singleton] at hfall
    subst hfall
    simp [partNonempty]
  · rcases List.mem_append.mp hmem with hA | hB
    · by_cases htext : jsTrim msg.text = ""
      · rw [if_pos htext] at hA
        simp at hA
      · rw [if_neg htext] at hA
        simp only [List.mem_singleton] at hA
        subst hA
        exact ne_empty_of_jsTrim_ne msg.text htext
    · obtain ⟨a, ha, rfl⟩ := List.mem_map.mp hB
      exact hatt a ha

/-- The text part of a textual knowledge-base document is non-empty (it
begins with the document header). -/
theorem textDocPart_nonempty (doc : DocumentItem) : partNonempty (textDocPart doc) := by
  show ("[KNOWLEDGE BASE DOCUMENT: " ++ doc.name ++ " (" ++ doc.type.str ++ ")]\n"
    ++ doc.content) ≠ ""
  intro h
  have hl := congrArg String.length h
  simp only [String.length_append] at hl
  have h26 : ("[KNOWLEDGE BASE DOCUMENT: " : String).length = 26 := rfl
  have h0 : ("" : String).length = 0 := rfl
  rw [h26, h0] at hl
  omega

/-- Every part of the new turn is non-empty, provided the per-turn
attachments keep a non-empty payload after whitespace stripping. -/
theorem currentTurnParts_parts_nonempty (prompt : String) (memory : List DocumentItem)
    (atts : List ChatAttachment) (hatt : ∀ a ∈ atts, stripWs a.data ≠ "") :
    ∀ p ∈ currentTurnParts prompt memory atts, partNonempty p := by
  intro p hp
  simp only [currentTurnParts] at hp
  rcases mem_if_nil_fallback _ _ hp with hfall | hmem
  · simp only [List.mem_singleton] at hfall
    subst hfall
    simp [partNonempty]
  · rcases List.mem_append.mp hmem with hABC | hD
    · rcases List.mem_append.mp hABC with hAB | hC
      · rcases List.mem_append.mp hAB with hA | hB
        · obtain ⟨d, _, rfl⟩ := List.mem_map.mp hA
          exact textDocPart_nonempty d
        · obtain ⟨d, _, hpd⟩ := List.mem_flatMap.mp hB
          simp only [binaryDocPart] at hpd
          by_cases hdat : binaryDocData d = ""
          · rw [if_pos hdat] at hpd
            simp at hpd
          · rw [if_neg hdat] at hpd
            simp only [List.mem_singleton] at hpd
            subst hpd
            exact hdat
      · by_cases htext : jsTrim prompt = ""
        · rw [if_pos htext] at hC
          simp at hC
        · rw [if_neg htext] at hC
          simp only [List.mem_singleton] at hC
          subst hC
          exact ne_empty_of_jsTrim_ne prompt htext
    · obtain ⟨a, ha, hpa⟩ := List.mem_flatMap.mp hD
      simp only [attachmentParts] at hpa
      by_cases hdat : a.data = ""
      · rw [if_pos hdat] at hpa
        simp at hpa
      · rw [if_neg hdat] at hpa
        simp only [List.mem_singleton] at hpa
        subst hpa
        exact hatt a ha

/-! ## Claim theorems -/

/-- C2: every turn of the assembled request has at least one content part;
a historical message with empty text and no attachments is emitted as
exactly the single placeholder text part `"..."`; a submission with empty
prompt, no attachments and empty memory yields exactly the single
placeholder text part `"Analyze the current context."`; and whenever the
attachments in play carry non-empty payloads, every emitted content part
is non-empty. -/
theorem C2_nonempty_turns (prompt : String) (history : List ChatMessage)
    (memory : List DocumentItem) (model : ModelType)
    (currentAttachments : List ChatAttachment) (useSearch : Bool) :
    (∀ t ∈ (performResearch prompt history memory model currentAttachments useSearch).contents,
        t.parts ≠ [])
    ∧ (∀ msg : ChatMessage, msg.text = "" → msg.attachments = [] →
        historyTurnParts msg = [Part.text "..."])
    ∧ (jsTrim prompt = "" →
        currentTurnParts prompt [] [] = [Part.text "Analyze the current context."])
    ∧ ((∀ msg ∈ history, ∀ a ∈ msg.attachments, a.data ≠ "") →
       (∀ a ∈ currentAttachments, stripWs a.data ≠ "") →
       ∀ t ∈ (performResearch prompt history memory model currentAttachments useSearch).contents,
         ∀ p ∈ t.parts, partNonempty p) := by
  refine ⟨?_, ?_, ?_, ?_⟩
  · intro t ht
    simp only [performResearch] at ht
    rcases List.mem_append.mp ht with hm | hn
    · obtain ⟨msg, _, rfl⟩ := List.mem_map.mp hm
      exact historyTurnParts_ne_nil msg
    · simp only [List.mem_singleton] at hn
      subst hn
      exact currentTurnParts_ne_nil prompt memory currentAttachments
  · intro msg h1 h2
    simp [historyTurnParts, h1, h2, jsTrim_empty]
  · intro h
    simp [currentTurnParts, h]
  · intro hh ha t ht p hp
    simp only [performResearch] at ht
    rcases List.mem_append.mp ht with hm | hn
    · obtain ⟨msg, hmsg, rfl⟩ := List.mem_map.mp hm
      exact historyTurnParts_parts_nonempty msg (hh msg hmsg) p hp
    · simp only [List.mem_singleton] at hn
      subst hn
      exact currentTurnParts_parts_nonempty prompt memory currentAttachments ha p hp

/-- C2 witness: the placeholder clauses at concrete inputs. -/
theorem C2_nonempty_turns_witness :
    historyTurnParts
        { id := "m0", role := Role.user, text := "", sources := [], attachments := [],
          timestamp := 0 }
      = [Part.text "..."]
    ∧ currentTurnParts "" [] [] = [Part.text "Analyze the current context."] := by
  constructor
  · exact (C2_nonempty_turns "" [] [] ModelType.gemini3pro [] true).2.1 _ rfl rfl
  · exact (C2_nonempty_turns "" [] [] ModelType.gemini3pro [] true).2.2.1 rfl

/-- C5: the auto-speak effect never fires while the last-read tracker is
unset (in particular not on the run that observes the conversation
restored at mount time); clearing the conversation stops any active
playback and resets the tracker; with the preference enabled, a newly
appended model-authored message is spoken exactly once (the run that
observes it stops any current playback and starts one playback for it, and
a repeated run over the same list fires nothing); an appended user message
never fires; with the preference disabled nothing fires; and the spec's
load → clear → user message → model reply scenario produces exactly one
playback start, for the new model message. -/
theorem C5_autospeak (autoSpeak : Bool) (msgs : List ChatMessage)
    (speech : SpeechState) (st : AutoSpeakState) (lid : String) (m : ChatMessage) :
    (autoSpeakStep autoSpeak msgs { lastRead := none, speech := speech }).2 = []
    ∧ autoSpeakStep autoSpeak [] st
        = ({ lastRead := none, speech := stopSpeechFn st.speech }, [])
    ∧ (st.lastRead = some lid → m.id ≠ lid → m.role = Role.model →
        st.speech.speaking ≠ some m.id →
        autoSpeakStep true (msgs ++ [m]) st
          = ({ lastRead := some m.id,
               speech := { speaking := some m.id, paused := false, hasSource := true } },
             [SpeechAction.stop, SpeechAction.start m.id])
        ∧ autoSpeakStep true (msgs ++ [m])
            { lastRead := some m.id,
              speech := { speaking := some m.id, paused := false, hasSource := true } }
          = ({ lastRead := some m.id,
               speech := { speaking := some m.id, paused := false, hasSource := true } }, []))
    ∧ (st.lastRead = some lid → m.role = Role.user →
        (autoSpeakStep autoSpeak (msgs ++ [m]) st).2 = [])
    ∧ (st.lastRead = some lid →
        (autoSpeakStep false (msgs ++ [m]) st).2 = [])
    ∧ autoSpeakRun true [demoLoaded, [], [demoUserMsg], [demoUserMsg, demoModelMsg]]
        = ({ lastRead := some "m4",
             speech := { speaking := some "m4", paused := false, hasSource := true } },
           [SpeechAction.stop, SpeechAction.start "m4"]) := by
  refine ⟨?_, ?_, ?_, ?_, ?_, ?_⟩
  · cases h : lastElem msgs <;> simp [autoSpeakStep, h]
  · obtain ⟨lr, sp⟩ := st
    cases lr <;> rfl
  · intro h1 h2 h3 h4
    have hl := lastElem_concat msgs m
    constructor
    · simp [autoSpeakStep, hl, h1, h2, h3, handleSpeech, h4]
    · simp [autoSpeakStep, hl]
  · intro h1 h2
    have hl := lastElem_concat msgs m
    by_cases hid : m.id = lid
    · simp [autoSpeakStep, hl, h1, hid]
    · simp [autoSpeakStep, hl, h1, hid, h2]
  · intro h1
    have hl := lastElem_concat msgs m
    by_cases hid : m.id = lid
    · simp [autoSpeakStep, hl, h1, hid]
    · simp [autoSpeakStep, hl, h1, hid]
  · decide

/-- C5 witness: after the clear-then-send sequence, the run of the effect
that observes the appended model reply speaks it. -/
theorem C5_autospeak_witness :
    autoSpeakStep true [demoUserMsg, demoModelMsg]
        { lastRead := some "u3",
          speech := { speaking := none, paused := false, hasSource := false } }
      = ({ lastRead := some "m4",
           speech := { speaking := some "m4", paused := false, hasSource := true } },
         [SpeechAction.stop, SpeechAction.start "m4"]) := by
  have h := ((C5_autospeak true [demoUserMsg]
      { speaking := none, paused := false, hasSource := false }
      { lastRead := some "u3",
        speech := { speaking := none, paused := false, hasSource := false } }
      "u3" demoModelMsg).2.2.1 rfl (by decide) (by decide) (by decide)).1
  simpa [demoModelMsg] using h

/-- C4 counterexample: on a research failure at a concrete input, the
final status set by `handleSendMessage` is not IDLE — the handler sets
`AppStatus.ERROR` — so the claim's "returns to idle status" fails. -/
theorem C4_counterexample :
    (handleSendMessage "query" [] 0 ResearchOutcome.failure).finalStatus ≠ AppStatus.idle := by
  decide

/-- C4 (amended): whenever the remote research call fails,
`handleSendMessage` appends exactly one synthetic model-authored error
message (with the fixed error text) after the user's own message, persists
exactly the appended messages, issues exactly one research call (no
retry), and sets the status to ERROR — a non-busy state, but not IDLE. -/
theorem C4_failure_single_error (text : String) (atts : List ChatAttachment) (now : Nat) :
    (handleSendMessage text atts now ResearchOutcome.failure).appendedMessages
      = [{ id := toString now, role := Role.user, text := text, sources := [],
           attachments := atts, timestamp := now },
         { id := toString (now + 1), role := Role.model, text := researchErrorText,
           sources := [], attachments := [], timestamp := now }]
    ∧ (handleSendMessage text atts now ResearchOutcome.failure).persistedMessages
      = (handleSendMessage text atts now ResearchOutcome.failure).appendedMessages
    ∧ (handleSendMessage text atts now ResearchOutcome.failure).researchCalls = 1
    ∧ (handleSendMessage text atts now ResearchOutcome.failure).finalStatus = AppStatus.error :=
  ⟨rfl, rfl, rfl, rfl⟩

/-- C6: invoking the speak control for the message that is already the
active speech target toggles pause/resume (the speech target — and hence
the playback position — is untouched, and no stop/start is performed);
invoking it for any other message stops the current playback first and
then starts the new one, so at most one playback is ever active (the state
holds a single optional target). -/
theorem C6_speech_toggle (st : SpeechState) (messageId : String) :
    (st.speaking = some messageId →
      handleSpeech st messageId =
        (if st.paused then ({ st with paused := false }, [SpeechAction.resume])
         else ({ st with paused := true }, [SpeechAction.pause])))
    ∧ (st.speaking ≠ some messageId →
      handleSpeech st messageId =
        ({ speaking := some messageId, paused := false, hasSource := true },
         [SpeechAction.stop, SpeechAction.start messageId])) := by
  constructor
  · intro h
    simp [handleSpeech, h]
  · intro h
    simp [handleSpeech, h]

/-- C6 witness: a second call with the playing message's id pauses, a
further call resumes, and a call with a different id stops then starts. -/
theorem C6_speech_toggle_witness :
    handleSpeech { speaking := some "m1", paused := false, hasSource := true } "m1"
      = ({ speaking := some "m1", paused := true, hasSource := true }, [SpeechAction.pause])
    ∧ handleSpeech { speaking := some "m1", paused := true, hasSource := true } "m1"
      = ({ speaking := some "m1", paused := false, hasSource := true }, [SpeechAction.resume])
    ∧ handleSpeech { speaking := some "m1", paused := false, hasSource := true } "m2"
      = ({ speaking := some "m2", paused := false, hasSource := true },
         [SpeechAction.stop, SpeechAction.start "m2"]) := by
  refine ⟨?_, ?_, ?_⟩
  · have h := (C6_speech_toggle
      { speaking := some "m1", paused := false, hasSource := true } "m1").1 rfl
    simpa using h
  · have h := (C6_speech_toggle
      { speaking := some "m1", paused := true, hasSource := true } "m1").1 rfl
    simpa using h
  · exact (C6_speech_toggle
      { speaking := some "m1", paused := false, hasSource := true } "m2").2 (by decide)

/-- C7: `startRecording` is a no-op (state unchanged, no playback stop, no
capture) while transcription is in progress or a model response is
awaited; otherwise it always stops speech playback first, and capture
begins (only) when the microphone is acquired, strictly after the
playback stop. -/
theorem C7_start_recording (isRecording isTranscribing : Bool) (status : AppStatus)
    (speech : SpeechState) (micOk : Bool) :
    (isTranscribing = true ∨ status = AppStatus.loading →
      startRecording isRecording isTranscribing status speech micOk
        = (isRecording, speech, []))
    ∧ (isTranscribing = false → status ≠ AppStatus.loading →
      startRecording isRecording isTranscribing status speech micOk
        = (if micOk then true else isRecording,
           { speaking := none, paused := false, hasSource := false },
           if micOk then [RecAction.stopPlayback, RecAction.beginCapture]
           else [RecAction.stopPlayback])) := by
  constructor
  · intro h
    simp [startRecording, h]
  · intro h1 h2
    simp only [startRecording, h1, h2]
    cases micOk <;> simp [stopSpeechFn]

/-- C7 witness: with the pipeline idle, starting a recording while a
message is being spoken stops the playback and then begins capture; with
transcription in progress, nothing happens. -/
theorem C7_start_recording_witness :
    startRecording false false AppStatus.idle
        { speaking := some "m1", paused := false, hasSource := true } true
      = (true, { speaking := none, paused := false, hasSource := false },
         [RecAction.stopPlayback, RecAction.beginCapture])
    ∧ startRecording false true AppStatus.idle
        { speaking := some "m1", paused := false, hasSource := true } true
      = (false, { speaking := some "m1", paused := false, hasSource := true }, []) := by
  constructor
  · have h := (C7_start_recording false false AppStatus.idle
      { speaking := some "m1", paused := false, hasSource := true } true).2 rfl (by decide)
    simpa using h
  · exact (C7_start_recording false true AppStatus.idle
      { speaking := some "m1", paused := false, hasSource := true } true).1 (Or.inl rfl)

/-- C8: for every submission, the assembled configuration carries the
fixed sampling temperature 0.7, a thinking budget equal to 32768 for the
Pro variant and 24576 for Flash (exactly two fixed values, the higher one
for Pro), and the search-grounding tool exactly when the search toggle is
enabled. -/
theorem C8_request_config (prompt : String) (history : List ChatMessage)
    (memory : List DocumentItem) (model : ModelType)
    (currentAttachments : List ChatAttachment) (useSearch : Bool) :
    (performResearch prompt history memory model currentAttachments useSearch).config.temperature
      = 7 / 10
    ∧ (performResearch prompt history memory model currentAttachments useSearch).config.thinkingBudget
      = (if model = ModelType.gemini3pro then 32768 else 24576)
    ∧ ((performResearch prompt history memory model currentAttachments useSearch).config.thinkingBudget = 32768
        ∨ (performResearch prompt history memory model currentAttachments useSearch).config.thinkingBudget = 24576)
    ∧ (performResearch prompt history memory model currentAttachments useSearch).config.tools
      = (if useSearch then [ToolSpec.googleSearch] else []) := by
  cases model <;> cases useSearch <;>
    simp [performResearch, mkConfig]

/-- C9: evaluation of the fetch-all wrappers at their failure points. A
rejection of `openDB` (awaited inside the `try`) is caught and degrades to
the empty list, for both collections; but a failure of the `getAll` read
request itself rejects the inner promise, which the wrapper returns
without `await`, so the rejection escapes the `catch` and propagates to
the caller instead of resolving to an empty result. -/
theorem C9_read_failure_behavior :
    getAllDocuments (Except.ok ()) (Except.error "getAll request failed")
      = Except.error "getAll request failed"
    ∧ getAllMessages (Except.ok ()) (Except.error "getAll request failed")
      = Except.error "getAll request failed"
    ∧ getAllDocuments (Except.error "openDB failed") (Except.error "getAll request failed")
      = Except.ok []
    ∧ getAllMessages (Except.error "openDB failed") (Except.error "getAll request failed")
      = Except.ok [] :=
  ⟨rfl, rfl, rfl, rfl⟩

/-- C10: the text payload sent by `generateSpeech` is the
markdown-stripped input whenever that is non-empty, and the fixed fallback
string `"I have no content to read."` when stripping yields the empty
string; in particular the payload is never empty. -/
theorem C10_speech_payload (text : String) :
    (stripMarkdown text ≠ "" → generateSpeechPayload text = stripMarkdown text)
    ∧ (stripMarkdown text = "" → generateSpeechPayload text = "I have no content to read.")
    ∧ generateSpeechPayload text ≠ "" := by
  unfold generateSpeechPayload
  by_cases h : stripMarkdown text = "" <;> simp [h]

/-- C10 witness: a markdown-formatted input is stripped and sent as is; an
input that strips to nothing is replaced by the fixed fallback. -/
theorem C10_speech_payload_witness :
    generateSpeechPayload "## Hello **world**" = "Hello world"
    ∧ generateSpeechPayload "*" = "I have no content to read." := by
  constructor
  · have h := (C10_speech_payload "## Hello **world**").1 (by decide)
    rw [h]
    decide
  · exact (C10_speech_payload "*").2.1 (by decide)

/-- C1 counterexample: with one textual memory document and the non-empty
(whitespace-only) prompt `" "`, the assembled new-turn parts list omits
the prompt part, while the claim's description — prompt part present
whenever the prompt is non-empty — predicts it, so the claim as stated
fails. -/
theorem C1_counterexample :
    currentTurnParts " " [notesDoc] [] ≠ claimedNewTurnParts " " [notesDoc] [] := by
  decide

/-- C1 (amended): for every non-empty memory set whose binary documents
carry a non-empty normalized base64 payload, and attachments with
non-empty data, the new-turn parts list is exactly: one header-prefixed
text part per textual document in memory order, then one inline-data part
per binary document in memory order (with the recovered MIME type and
normalized payload), then the prompt as a text part exactly when its
whitespace-trimmed form is non-empty (a whitespace-only prompt contributes
no part), then one inline-data part per per-turn attachment. -/
theorem C1_new_turn_order (prompt : String) (memory : List DocumentItem)
    (atts : List ChatAttachment)
    (hmem : memory ≠ [])
    (hbin : ∀ d ∈ memory, isBinaryType d.type = true → binaryDocData d ≠ "")
    (hatt : ∀ a ∈ atts, a.data ≠ "") :
    currentTurnParts prompt memory atts =
      ((memory.filter (fun d => isTextualType d.type)).map textDocPart)
        ++ ((memory.filter (fun d => isBinaryType d.type)).map
              (fun d => Part.inlineData (binaryDocMimeUsed d) (binaryDocData d)))
        ++ (if jsTrim prompt = "" then [] else [Part.text prompt])
        ++ (atts.map (fun a => Part.inlineData a.mimeType (stripWs a.data))) := by
  have hb : (memory.filter (fun d => isBinaryType d.type)).flatMap binaryDocPart
      = (memory.filter (fun d => isBinaryType d.type)).map
          (fun d => Part.inlineData (binaryDocMimeUsed d) (binaryDocData d)) := by
    apply flatMap_eq_map_of_singleton
    intro d hd
    obtain ⟨hd1, hd2⟩ := List.mem_filter.mp hd
    simp only [binaryDocPart]
    rw [if_neg (hbin d hd1 hd2)]
  have ha : atts.flatMap attachmentParts
      = atts.map (fun a => Part.inlineData a.mimeType (stripWs a.data)) := by
    apply flatMap_eq_map_of_singleton
    intro a haMem
    simp only [attachmentParts]
    rw [if_neg (hatt a haMem)]
  simp only [currentTurnParts, hb, ha]
  apply if_neg
  intro hnil
  simp only [List.append_eq_nil] at hnil
  obtain ⟨⟨⟨htext, hbinNil⟩, _⟩, _⟩ := hnil
  obtain ⟨d, rest, rfl⟩ := List.exists_cons_of_ne_nil hmem
  rcases docType_textual_or_binary d.type with hdt | hdb
  · have hdmem : d ∈ List.filter (fun d => isTextualType d.type) (d :: rest) :=
      List.mem_filter.mpr ⟨List.mem_cons_self d rest, hdt⟩
    have : textDocPart d ∈
        (List.filter (fun d => isTextualType d.type) (d :: rest)).map textDocPart :=
      List.mem_map_of_mem textDocPart hdmem
    rw [htext] at this
    simp at this
  · have hdmem : d ∈ List.filter (fun d => isBinaryType d.type) (d :: rest) :=
      List.mem_filter.mpr ⟨List.mem_cons_self d rest, hdb⟩
    have : Part.inlineData (binaryDocMimeUsed d) (binaryDocData d) ∈
        (List.filter (fun d => isBinaryType d.type) (d :: rest)).map
          (fun d => Part.inlineData (binaryDocMimeUsed d) (binaryDocData d)) :=
      List.mem_map_of_mem _ hdmem
    rw [hbinNil] at this
    simp at this

/-- C1 witness: the spec's example scenario — one textual document
`notes.txt` with content `"A"`, one image document, prompt `"B"`, no
attachments — assembles exactly the three predicted parts. -/
theorem C1_new_turn_order_witness :
    currentTurnParts "B" [notesDoc, imgDoc] []
      = [Part.text "[KNOWLEDGE BASE DOCUMENT: notes.txt (text)]\nA",
         Part.inlineData "image/png" "iVBORw0K",
         Part.text "B"] := by
  have h := C1_new_turn_order "B" [notesDoc, imgDoc] []
    (by decide) (by decide) (by decide)
  rw [h]
  decide

/-- C3: whitespace normalization and data-URL decoding of the binary-part
path. The result of the stripping pass never contains a whitespace (hence
newline) character; every inline-data part produced for a binary memory
document or a per-turn attachment carries whitespace-free data; and for a
data-URL-encoded binary document `data:<mime>;base64,<payload>` the part
carries exactly the MIME type recovered from the data-URL prefix and the
whitespace-stripped payload. -/
theorem C3_base64_normalization :
    (∀ s : String, ∀ c ∈ (stripWs s).data, isJsWs c = false)
    ∧ (∀ doc : DocumentItem, ∀ p ∈ binaryDocPart doc, partNoWs p)
    ∧ (∀ a : ChatAttachment, ∀ p ∈ attachmentParts a, partNoWs p)
    ∧ (∀ (doc : DocumentItem) (m payload : String),
        m.data ≠ [] →
        (∀ c ∈ m.data, c ≠ ';') →
        (∀ c ∈ m.data, c ≠ ',') →
        doc.content = "data:" ++ m ++ ";base64," ++ payload →
        stripWs payload ≠ "" →
        binaryDocPart doc = [Part.inlineData m (stripWs payload)]) := by
  have hfilter : ∀ (l : List Char), ∀ c ∈ l.filter (fun c => !isJsWs c), isJsWs c = false := by
    intro l c hc
    have := (List.mem_filter.mp hc).2
    simpa using this
  refine ⟨?_, ?_, ?_, ?_⟩
  · intro s c hc
    exact hfilter s.data c hc
  · intro doc p hp
    simp only [binaryDocPart] at hp
    by_cases hdat : binaryDocData doc = ""
    · rw [if_pos hdat] at hp
      simp at hp
    · rw [if_neg hdat] at hp
      simp only [List.mem_singleton] at hp
      subst hp
      intro c hc
      exact hfilter _ c hc
  · intro a p hp
    simp only [attachmentParts] at hp
    by_cases hdat : a.data = ""
    · rw [if_pos hdat] at hp
      simp at hp
    · rw [if_neg hdat] at hp
      simp only [List.mem_singleton] at hp
      subst hp
      intro c hc
      exact hfilter _ c hc
  · intro doc m payload hm hsemi hcomma hc hp
    have hm' : m ≠ "" := by
      intro h
      rw [h] at hm
      exact hm rfl
    have hpre : ∀ c ∈ (['d','a','t','a',':'] ++ (m.data ++ [';','b','a','s','e','6','4'])
        : List Char), c ≠ ',' := by
      intro c hcm
      rcases List.mem_append.mp hcm with h1 | h2
      · simp only [List.mem_cons, List.not_mem_nil, or_false] at h1
        rcases h1 with rfl | rfl | rfl | rfl | rfl <;> decide
      · rcases List.mem_append.mp h2 with hb | hcl
        · exact hcomma c hb
        · simp only [List.mem_cons, List.not_mem_nil, or_false] at hcl
          rcases hcl with rfl | rfl | rfl | rfl | rfl | rfl | rfl <;> decide
    have hdata : doc.content.data
        = (['d','a','t','a',':'] ++ (m.data ++ [';','b','a','s','e','6','4']))
            ++ (',' :: payload.data) := by
      rw [hc]
      simp [String.data_append, List.append_assoc]
    have hsplit : breakAtComma doc.content.data
        = some (['d','a','t','a',':'] ++ (m.data ++ [';','b','a','s','e','6','4']),
                payload.data) := by
      rw [hdata]
      exact breakAtComma_pre_comma _ _ hpre
    have hbsplit : binarySplit doc.content
        = (some (['d','a','t','a',':'] ++ (m.data ++ [';','b','a','s','e','6','4'])),
           payload.data) := by
      simp [binarySplit, hsplit]
    have hdataEq : binaryDocData doc = stripWs payload := by
      simp only [binaryDocData, hbsplit, stripWs]
    have hmatch : matchDataMime
        ('d' :: 'a' :: 't' :: 'a' :: ':' :: (m.data ++ [';','b','a','s','e','6','4'])) = some m.data := by
      simp only [matchDataMime]
      have htw : (m.data ++ ([';','b','a','s','e','6','4'] : List Char)).takeWhile
          (fun c => c != ';') = m.data := by
        have hsh : ([';','b','a','s','e','6','4'] : List Char)
            = ';' :: ['b','a','s','e','6','4'] := rfl
        rw [hsh]
        exact takeWhile_neq_semi m.data _ hsemi
      rw [htw, if_neg hm, drop_len_append]
      simp [startsWithSemiBase64]
    have hsearch : searchDataMime
        (['d','a','t','a',':'] ++ (m.data ++ [';','b','a','s','e','6','4'])) = some m.data := by
      have hshape : (['d','a','t','a',':'] ++ (m.data ++ [';','b','a','s','e','6','4'])
          : List Char) = 'd' :: 'a' :: 't' :: 'a' :: ':' :: (m.data ++ [';','b','a','s','e','6','4']) := rfl
      rw [hshape]
      unfold searchDataMime
      rw [hmatch]
    have hmime : binaryDocMimeUsed doc = m := by
      simp only [binaryDocMimeUsed, hbsplit, hsearch]
      have heta : (String.mk m.data) = m := rfl
      rw [heta]
      simp [jsOrString, hm']
    simp only [binaryDocPart, hdataEq, hmime]
    rw [if_neg hp]

/-- C3 witness: the sample image document, whose base64 payload carries an
embedded newline, is normalized to a whitespace-free payload and its MIME
type is recovered from the data-URL prefix. -/
theorem C3_base64_normalization_witness :
    binaryDocPart imgDoc = [Part.inlineData "image/png" "iVBORw0K"] := by
  have h := C3_base64_normalization.2.2.2 imgDoc "image/png" "iVBOR\nw0K"
    (by decide) (by decide) (by decide) (by decide) (by decide)
  rw [h]
  decide

end Nexus
